import Mathlib

/-!
Verification development for the wbgapi request/paging/chunking engine
(`wbgapi/__init__.py`).  Strings are modelled as `List Char`; a URL template
(`'sources/{source}/series/{series}'`) is a list of literal and hole pieces;
Python keyword-argument dictionaries are modelled as total functions from
variable names to value strings (every template token is assumed bound, as the
module requires).  Decoded JSON documents are modelled by the inductive `JVal`;
Python dicts whose insertion order matters are modelled as ordered association
lists with first-occurrence update.
-/

namespace Wbgapi

/-- A value / URL string, modelled as a list of characters. -/
abbrev Str := List Char

/-- One piece of a URL template: either a literal character run or a
`\x7bname\x7d` hole. -/
inductive Piece where
  | lit : Str → Piece
  | hole : String → Piece
deriving DecidableEq

/-- A URL template (`url` argument of `refetch`): its pieces in order. -/
abbrev Template := List Piece

/-- Keyword bindings (`**kwargs`): a total map from token names to value
strings. -/
abbrev Bindings := String → Str

/-- `updateB kw x v` is the dictionary `kw` with key `x` re-bound to `v`
(models `kw[var] = value`). -/
def updateB (kw : Bindings) (x : String) (v : Str) : Bindings :=
  fun y => if y = x then v else kw y

/-- `fmt t kw` models `url.format(**kw)`: literals pass through, every hole is
replaced by its binding. -/
def fmt (t : Template) (kw : Bindings) : Str :=
  match t with
  | [] => []
  | .lit s :: rest => s ++ fmt rest kw
  | .hole x :: rest => kw x ++ fmt rest kw

/-- Number of `';'` characters in a string. -/
def countSemis (s : Str) : Nat := s.count ';'

/-- Total number of `';'` characters over a list of parts (termination measure
for the subdivision loop). -/
def totalSemis (ps : List Str) : Nat := (ps.map countSemis).sum

/-- `findSemi s` models Python `s.find(';')`: the index of the first `';'`,
or `none` when there is none (Python returns `-1`). -/
def findSemi : Str → Option Nat
  | [] => none
  | c :: cs => if c = ';' then some 0 else (findSemi cs).map (· + 1)

/-- One part's treatment inside `subdivide`: with `mp = len(s)//2` and
`of = s[mp:].find(';')`, a part with no semicolon from its midpoint on is kept
whole; otherwise it is split into `s[:mp+of]` and `s[mp+of+1:]` (the semicolon
itself is dropped). -/
def splitPart (s : Str) : List Str :=
  match findSemi (s.drop (s.length / 2)) with
  | none => [s]
  | some of => [s.take (s.length / 2 + of), s.drop (s.length / 2 + of + 1)]

/-- `subdivide parts` models the inner `subdivide` of `_refetch_url`: every
part is split at a semicolon near its midpoint when possible. -/
def subdivide (parts : List Str) : List Str :=
  match parts with
  | [] => []
  | s :: rest => splitPart s ++ subdivide rest

/-- `maxByLen ps` models `max(parts, key=len)`: the first part of maximal
length (Python `max` keeps the earliest maximum). -/
def maxByLen : List Str → Str
  | [] => []
  | [s] => s
  | s :: t :: rest =>
    let m := maxByLen (t :: rest)
    if m.length ≤ s.length then s else m

/-- `joinSemi ps` re-joins parts with `';'` separators (`';'.join(parts)`):
used to state that chunking partitions the original value string. -/
def joinSemi : List Str → Str
  | [] => []
  | [s] => s
  | s :: t :: rest => s ++ ';' :: joinSemi (t :: rest)

/-- The module default URL-length ceiling
(`api_maxlen = 1400` in `wbgapi/__init__.py`).  The ceiling is process-wide
mutable configuration, so the chunking functions below take it as an explicit
parameter. -/
def api_maxlen : Nat := 1400

/-- The `while True` loop of `_refetch_url` for one variable `x`, with an
explicit fuel so that the definition computes by kernel reduction (the loop
terminates because each productive `subdivide` strictly lowers `totalSemis`,
so `totalSemis parts + 1` fuel always suffices — see `chunkLoop_eq`): test the
URL with the longest current part substituted; on success return the current
parts with flag `true`; when `subdivide` makes no progress return them with
flag `false` (the variable is exhausted); otherwise loop on the subdivided
parts. -/
def chunkLoopF (maxlen : Nat) (t : Template) (x : String) (kw : Bindings) :
    Nat → List Str → List Str × Bool
  | 0, parts => (parts, false)
  | fuel + 1, parts =>
    if (fmt t (updateB kw x (maxByLen parts))).length < maxlen then
      (parts, true)
    else if (subdivide parts).length = parts.length then
      (parts, false)
    else
      chunkLoopF maxlen t x kw fuel (subdivide parts)

/-- The `while True` loop of `_refetch_url`, with its always-sufficient fuel
supplied. -/
def chunkLoop (maxlen : Nat) (t : Template) (x : String) (kw : Bindings)
    (parts : List Str) : List Str × Bool :=
  chunkLoopF maxlen t x kw (totalSemis parts + 1) parts

/-- The `for elem in parts` fallback loop at the bottom of `_refetch_url`:
each exhausted chunk `e` is held fixed (`kw[var] = elem`) and the generator
`F` for the remaining variables is run; generation stops at the first chunk
whose sub-generation raises.  Returns the yielded URLs and whether `URLError`
was raised. -/
def refetchParts (F : Bindings → List Str × Bool) (x : String) (kw : Bindings) :
    List Str → List Str × Bool
  | [] => ([], false)
  | e :: es =>
    let r := F (updateB kw x e)
    if r.2 then r
    else
      let r2 := refetchParts F x kw es
      (r.1 ++ r2.1, r2.2)

/-- `_refetch_url(url, var, variables, **kwargs)`: chunk `var` (starting from
the single part `kwargs[var]`); on success yield one formatted URL per chunk;
on exhaustion raise `URLError` when no variables remain, else fall back to the
next variable for each fixed chunk.  Returns the URLs yielded (in order) and
whether `URLError` was raised. -/
def refetchUrl (maxlen : Nat) (t : Template) (x : String) (vars : List String)
    (kw : Bindings) : List Str × Bool :=
  match chunkLoop maxlen t x kw [kw x] with
  | (parts, true) => (parts.map (fun e => fmt t (updateB kw x e)), false)
  | (parts, false) =>
    match vars with
    | [] => ([], true)
    | y :: rest => refetchParts (fun kw2 => refetchUrl maxlen t y rest kw2) x kw parts

/-- The error surfaced by `refetch` to its caller. -/
inductive RefetchError where
  /-- `variables[0]` on an empty list raises `IndexError`. -/
  | indexError : RefetchError
  /-- `URLError` is translated into
  `ValueError('\x7b\x7d: parameters exceed the API maximum limit'.format(url))`,
  naming the offending template. -/
  | valueError : Template → RefetchError
deriving DecidableEq

/-- URL-level model of `refetch(url, variables, **kwargs)`: index
`variables[0]` (raising `IndexError` on an empty list — the generator body
runs on first consumption), run `_refetch_url`, and translate `URLError` into
the user-facing `ValueError` naming the template.  Returns the URLs whose
fetches are driven, plus the error raised during generation, if any. -/
def refetch (maxlen : Nat) (t : Template) (vlist : List String)
    (kw : Bindings) : List Str × Option RefetchError :=
  match vlist with
  | [] => ([], some .indexError)
  | v :: rest =>
    let r := refetchUrl maxlen t v rest kw
    (r.1, if r.2 then some (.valueError t) else none)

/-- Fixture: the spec's ceiling-50 chunking template `x/\x7bv\x7d`. -/
def tmplXV : Template := [.lit "x/".toList, .hole "v"]

/-- Fixture binding used with `tmplXV`: three 20-character values joined by
`';'`. -/
def kwXV : Bindings := fun y =>
  if y = "v" then
    "AAAAAAAAAAAAAAAAAAAA;BBBBBBBBBBBBBBBBBBBB;CCCCCCCCCCCCCCCCCCCC".toList
  else []

/-- Fixture: two-variable template `x/\x7bseries\x7d/\x7beconomy\x7d` for the
priority-fallback scenario. -/
def tmplSE : Template := [.lit "x/".toList, .hole "series", .lit "/".toList,
  .hole "economy"]

/-- Fixture bindings for `tmplSE`: `series` is one long unsplittable token,
`economy` is a splittable two-value list. -/
def kwSE : Bindings := fun y =>
  if y = "series" then "AAAAAAAAAAAA".toList
  else if y = "economy" then "BB;CC".toList
  else []

/-- One page of server output as `fetch` consumes it: the header fields
`hdr['total']` and `hdr['per_page']` it reads, and the payload records
extracted for that page.  Records are opaque (`α`). -/
structure PageResponse (α : Type) where
  total : Nat
  per_page : Nat
  records : List α

/-- The `while` guard of `fetch`:
`totalRecords is None or recordsRead < totalRecords`. -/
def shouldContinue (totalRecords : Option Nat) (recordsRead : Nat) : Bool :=
  match totalRecords with
  | none => true
  | some t => recordsRead < t

/-- The paging loop of `fetch`, abstracted over the server (page number →
page response) and given fuel (the real loop is unbounded; any fuel at least
the number of iterations gives the loop's full behavior).  Returns the pages
requested, in request order, and all records yielded, in yield order.
`totalRecords` is assigned from the header only while it is `none` — i.e.
from the first page only; `recordsRead` advances by the header's reported
`per_page`; the page counter increments by 1. -/
def fetchGo {α : Type} (server : Nat → PageResponse α) :
    Option Nat → Nat → Nat → Nat → List Nat × List α
  | _, _, _, 0 => ([], [])
  | totalRecords, recordsRead, page, fuel + 1 =>
    if shouldContinue totalRecords recordsRead then
      let r := server page
      let total := totalRecords.getD r.total
      let rec2 := fetchGo server (some total) (recordsRead + r.per_page)
        (page + 1) fuel
      (page :: rec2.1, r.records ++ rec2.2)
    else ([], [])

/-- `fetch(url, params)` paging behavior: start with `totalRecords = None`,
`recordsRead = 0`, `page = 1`. -/
def fetch {α : Type} (server : Nat → PageResponse α) (fuel : Nat) :
    List Nat × List α :=
  fetchGo server none 0 1 fuel

/-- Fixture server for the paging scenario: total 2500 reported on page 1
(later pages report junk totals, which `fetch` must ignore), `per_page` 1000
everywhere, pages of 1000, 1000 and 500 records. -/
def serverW : Nat → PageResponse Nat := fun p =>
  if p = 1 then ⟨2500, 1000, List.range 1000⟩
  else if p = 2 then ⟨9999, 1000, (List.range 1000).map (· + 1000)⟩
  else ⟨0, 1000, (List.range 500).map (· + 2000)⟩

/-- A query-string parameter value (`params` dict values). -/
inductive PVal where
  | nat : Nat → PVal
  | str : String → PVal
deriving DecidableEq

/-- A Python dict with insertion order, as an association list. -/
abbrev Dict (β : Type) := List (String × β)

/-- `d[k] = v` on an insertion-ordered dict: overwrite in place when the key
exists, else append. -/
def dictSet {β : Type} (d : Dict β) (k : String) (v : β) : Dict β :=
  match d with
  | [] => [(k, v)]
  | (k', v') :: rest => if k' = k then (k, v) :: rest else (k', v') :: dictSet rest k v

/-- `d.get(k)`: the value at the first (unique, for a real dict) occurrence of
`k`. -/
def dictGet {β : Type} (d : Dict β) (k : String) : Option β :=
  match d with
  | [] => none
  | (k', v) :: rest => if k' = k then some v else dictGet rest k

/-- `d.update(src)`: set every pair of `src` into `d`, in order. -/
def dictUpdate {β : Type} (d src : Dict β) : Dict β :=
  src.foldl (fun acc kv => dictSet acc kv.1 kv.2) d

/-- Query parameters assembled by `fetch`:
`params_ = \x7b'per_page': per_page\x7d; params_.update(params);
params_['page'] = 1; params_['format'] = 'json'`. -/
def fetchParams (per_page_default : Nat) (params : Dict PVal) : Dict PVal :=
  dictSet (dictSet (dictUpdate [("per_page", PVal.nat per_page_default)] params)
    "page" (.nat 1)) "format" (.str "json")

/-- Query parameters assembled by `get`: `params_ = params.copy();
params_['page'] = 1; params_['format'] = 'json'; params_['per_page'] = 1`. -/
def getParams (params : Dict PVal) : Dict PVal :=
  dictSet (dictSet (dictSet params "page" (.nat 1)) "format" (.str "json"))
    "per_page" (.nat 1)

/-- Fixture caller params trying to override everything. -/
def paramsW : Dict PVal := [("per_page", .nat 7), ("page", .nat 5),
  ("format", .str "xml")]

/-- A decoded JSON document (`response.json()` output). -/
inductive JVal where
  | jnull : JVal
  | jnum : Int → JVal
  | jstr : String → JVal
  | jarr : List JVal → JVal
  | jobj : List (String × JVal) → JVal

/-- Python truthiness of a decoded JSON value (`if result.get('source'):`,
`if hdr.get('message'):`). -/
def truthy : JVal → Bool
  | .jnull => false
  | .jnum n => decide (n ≠ 0)
  | .jstr s => !s.isEmpty
  | .jarr l => !l.isEmpty
  | .jobj o => !o.isEmpty

/-- `obj.get(k)` on a decoded JSON object. -/
def jget (o : List (String × JVal)) (k : String) : Option JVal :=
  match o with
  | [] => none
  | (k', v) :: rest => if k' = k then some v else jget rest k

/-- Errors raised out of the single-request executor `_queryAPI` and the
response-shape helpers.  `transport` is `APIError(url, response.reason,
response.status_code)`; `decodeErr` is `APIError(url, 'JSON decoding error')`;
`shape` is `APIError(url, 'Unrecognized response object format')`; `serverMsg`
carries `hdr['message'][0]` (the formatted key/value string is abstracted);
`keyError`, `indexError` and `typeError` model the corresponding Python
exceptions that escape undeclared (e.g. `result['source'][0]['concept']` on a
mapping without that key). -/
inductive APIErr where
  | transport : Nat → String → APIErr
  | decodeErr : APIErr
  | shape : APIErr
  | serverMsg : JVal → APIErr
  | keyError : String → APIErr
  | indexError : APIErr
  | typeError : APIErr

/-- `obj[k]` on a decoded JSON object: `KeyError` when absent. -/
def jgetE (o : List (String × JVal)) (k : String) : Except APIErr JVal :=
  match jget o k with
  | some v => .ok v
  | none => .error (.keyError k)

/-- `x[0]` on a decoded JSON value: `IndexError` on an empty sequence,
`TypeError`-like failure on a non-sequence. -/
def jindex0 (c : JVal) : Except APIErr JVal :=
  match c with
  | .jarr (first :: _) => .ok first
  | .jarr [] => .error .indexError
  | _ => .error .typeError

/-- `x['variable']` on a decoded JSON value that must be an object. -/
def jgetVariable (v0 : JVal) : Except APIErr JVal :=
  match v0 with
  | .jobj o => jgetE o "variable"
  | _ => .error .typeError

/-- `_responseHeader(url, result)`: a list whose first element is a mapping
returns that mapping; a mapping returns itself; anything else raises the
shape error. -/
def responseHeader (result : JVal) : Except APIErr JVal :=
  match result with
  | .jarr (.jobj o :: _) => .ok (.jobj o)
  | .jobj o => .ok (.jobj o)
  | _ => .error .shape

/-- `_responseObjects(url, result, wantConcepts)`: a list with more than one
element returns its second element (no check on the element types); a mapping
with a truthy `source` returns the concept payload (`source` a nonempty list
whose first element is a mapping) or the beta `data` payload (`source` a
mapping); anything else raises the shape error. -/
def responseObjects (result : JVal) (wantConcepts : Bool) : Except APIErr JVal :=
  match result with
  | .jarr (_ :: snd :: _) => .ok snd
  | .jobj o =>
    (match jget o "source" with
     | some src =>
       if truthy src then
         match src with
         | .jarr (first :: _) =>
           (match first with
            | .jobj fo =>
              if wantConcepts then jgetE fo "concept"
              else
                match jgetE fo "concept" with
                | .ok c =>
                  (match jindex0 c with
                   | .ok c0 => jgetVariable c0
                   | .error e => .error e)
                | .error e => .error e
            | _ => .error .shape)
         | .jobj so =>
           (match jget so "data" with
            | some d => .ok d
            | none => .error (.keyError "data"))
         | _ => .error .shape
       else .error .shape
     | none => .error .shape)
  | _ => .error .shape

/-- One HTTP response as `_queryAPI` sees it: the transport status code and
reason, and the decoded body (`none` models a body `response.json()` cannot
decode). -/
structure HttpResponse where
  status_code : Nat
  reason : String
  body : Option JVal

/-- `hdr.get('message')` check of `_queryAPI`: a truthy `message` value raises
the server-reported error carrying `hdr['message'][0]`. -/
def serverError (hdr : JVal) : Option APIErr :=
  match hdr with
  | .jobj o =>
    (match jget o "message" with
     | some m =>
       if truthy m then
         match m with
         | .jarr (first :: _) => some (.serverMsg first)
         | _ => some .typeError
       else none
     | none => none)
  | _ => none

/-- `_queryAPI(url)` on a given transport response: a non-200 status raises
the transport error with the status code and reason, before any decode
attempt; an undecodable body raises the decode error; then the header is
extracted and its embedded `message`, if truthy, raises; otherwise the
`(hdr, result)` pair is returned. -/
def queryAPI (resp : HttpResponse) : Except APIErr (JVal × JVal) :=
  if resp.status_code ≠ 200 then
    .error (.transport resp.status_code resp.reason)
  else
    match resp.body with
    | none => .error .decodeErr
    | some result =>
      match responseHeader result with
      | .error e => .error e
      | .ok hdr =>
        match serverError hdr with
        | some e => .error e
        | none => .ok (hdr, result)

/-- One `\x7bid, value\x7d` field inside a concept record's `metatype` list. -/
structure MetaField where
  id : String
  value : String
deriving DecidableEq

/-- One entry of a concept record's `variable` list. -/
structure MetaVariable where
  id : String
  metatype : List MetaField
deriving DecidableEq

/-- A concept record as consumed by `metadata`:
`\x7bid, variable: [\x7bid, metatype: [...]\x7d, ...]\x7d` (`varList` models
the `variable` key; `variable` is reserved in Lean). -/
structure ConceptRow where
  id : String
  varList : List MetaVariable
deriving DecidableEq

/-- The `Metadata` object: `concept`, `id` (both `None` in the initial
placeholder `Metadata(None, None)`) and the accumulated field dict. -/
structure MetadataEntity where
  concept : Option String
  id : Option String
  metadata : Dict String
deriving DecidableEq

/-- Python truthiness of `m.concept` (`if m.concept:`): `None` and the empty
string are falsy. -/
def truthyOpt : Option String → Bool
  | none => false
  | some s => !s.isEmpty

/-- One flattened quadruple-less triple as produced by the inner `metafield`
generator: (concept id, variable id, field). -/
abbrev MetaQuad := String × String × MetaField

/-- The `metafield(concept)` subroutine: flatten the nested
`variable[].metatype[]` structure in stream order. -/
def metafield (row : ConceptRow) : List MetaQuad :=
  row.varList.flatMap (fun v => v.metatype.map (fun f => (row.id, v.id, f)))

/-- The wanted-concepts filter of `metadata`:
`if concepts and row['id'] not in concepts: continue` (an empty wanted list is
falsy, so it filters nothing). -/
def keepRow (wanted : Option (List String)) (row : ConceptRow) : Bool :=
  match wanted with
  | none => true
  | some l => if l.isEmpty then true else l.contains row.id

/-- The accumulate-until-key-change loop of `metadata`, over the flattened
triples: on a key change emit the open accumulator when its concept is truthy
and start a fresh one; in either case write the field into the (new or
current) accumulator's dict; after the stream, emit the final accumulator when
its concept is truthy. -/
def metaGo (m : MetadataEntity) : List MetaQuad → List MetadataEntity
  | [] => if truthyOpt m.concept then [m] else []
  | (c, v, f) :: rest =>
    if m.concept ≠ some c ∨ m.id ≠ some v then
      (if truthyOpt m.concept then [m] else [])
        ++ metaGo ⟨some c, some v, dictSet [] f.id f.value⟩ rest
    else
      metaGo ⟨m.concept, m.id, dictSet m.metadata f.id f.value⟩ rest

/-- `metadata(url, variables, concepts, ...)`, record-assembly stage: filter
the concept-record stream by the wanted set, flatten with `metafield`, and
run the accumulator loop from the placeholder `Metadata(None, None)`.
(The Python loop interleaves filtering, flattening and accumulation, but a
single accumulator threaded left-to-right over the concatenated flat list is
the same computation.) -/
def metadataModel (wanted : Option (List String)) (stream : List ConceptRow) :
    List MetadataEntity :=
  metaGo ⟨none, none, []⟩ ((stream.filter (keepRow wanted)).flatMap metafield)

/-- A maximal contiguous key run of flattened triples: the shared
(concept id, variable id) key and the fields in order. -/
abbrev MetaRun := (String × String) × List MetaField

/-- The triples of one run. -/
def runQuads (r : MetaRun) : List MetaQuad :=
  r.2.map (fun f => (r.1.1, r.1.2, f))

/-- The triples of a run decomposition, concatenated in order. -/
def runsToQuads (runs : List MetaRun) : List MetaQuad :=
  runs.flatMap runQuads

/-- The entity a run assembles to: its key, and its fields written into an
empty dict in order (duplicate field ids overwrite: last write wins). -/
def runEntity (r : MetaRun) : MetadataEntity :=
  ⟨some r.1.1, some r.1.2, r.2.foldl (fun d f => dictSet d f.id f.value) []⟩

/-- Fixture concept rows for the A1, A1, B2 scenario. -/
def rowA1x : ConceptRow := ⟨"A", [⟨"1", [⟨"x", "1"⟩]⟩]⟩

/-- Second A1 row, carrying field y. -/
def rowA1y : ConceptRow := ⟨"A", [⟨"1", [⟨"y", "2"⟩]⟩]⟩

/-- B2 row, carrying field z. -/
def rowB2z : ConceptRow := ⟨"B", [⟨"2", [⟨"z", "3"⟩]⟩]⟩

/-- Row with a duplicate field id inside one entity (x written twice). -/
def rowDup : ConceptRow := ⟨"A", [⟨"1", [⟨"x", "1"⟩, ⟨"x", "2"⟩]⟩]⟩

/-- If `findSemi l = some i` then `l` decomposes around position `i`, which
holds a `';'`. -/
theorem findSemi_split : ∀ (l : Str) (i : Nat), findSemi l = some i →
    l = l.take i ++ ';' :: l.drop (i + 1) := by
  intro l
  induction l with
  | nil => intro i h; simp [findSemi] at h
  | cons c cs ih =>
    intro i h
    by_cases hc : c = ';'
    · simp [findSemi, hc] at h
      subst h
      simp [hc]
    · simp [findSemi, hc] at h
      obtain ⟨j, hj, hji⟩ := h
      subst hji
      have := ih j hj
      calc c :: cs = c :: (cs.take j ++ ';' :: cs.drop (j + 1)) := by rw [← this]
        _ = (c :: cs).take (j + 1) ++ ';' :: (c :: cs).drop (j + 1 + 1) := by simp

/-- `findSemi` never reports an index past the end of the string. -/
theorem findSemi_lt_length : ∀ (l : Str) (i : Nat), findSemi l = some i →
    i < l.length := by
  intro l
  induction l with
  | nil => intro i h; simp [findSemi] at h
  | cons c cs ih =>
    intro i h
    by_cases hc : c = ';'
    · simp [findSemi, hc] at h
      simp [← h]
    · simp [findSemi, hc] at h
      obtain ⟨j, hj, hji⟩ := h
      have := ih j hj
      simp [← hji, List.length_cons]
      omega

/-- A part split by `splitPart` decomposes as prefix, dropped `';'`, suffix. -/
theorem splitPart_decomp (s : Str) (of : Nat)
    (h : findSemi (s.drop (s.length / 2)) = some of) :
    s = s.take (s.length / 2 + of) ++ ';' :: s.drop (s.length / 2 + of + 1) := by
  have hsplit := findSemi_split _ _ h
  conv_lhs => rw [← List.take_append_drop (s.length / 2) s]
  rw [show s.length / 2 + of + 1 = s.length / 2 + (of + 1) by omega,
    ← List.drop_drop, List.take_add]
  conv_lhs => rw [hsplit]
  simp [List.drop_drop]

/-- Splitting one part conserves its semicolon count plus pieces: the split
drops exactly one `';'` and adds exactly one piece. -/
theorem splitPart_semis_add_length (s : Str) :
    ((splitPart s).map countSemis).sum + (splitPart s).length
      = countSemis s + 1 := by
  unfold splitPart
  cases h : findSemi (s.drop (s.length / 2)) with
  | none => simp
  | some of =>
    have hdec := splitPart_decomp s of h
    have hcount : countSemis s =
        countSemis (s.take (s.length / 2 + of)) +
        countSemis (s.drop (s.length / 2 + of + 1)) + 1 := by
      unfold countSemis
      conv_lhs => rw [hdec]
      simp [List.count_append, List.count_cons]
      omega
    simp only [List.map_cons, List.map_nil, List.sum_cons, List.sum_nil,
      List.length_cons, List.length_nil]
    omega

/-- `splitPart` yields one or two pieces. -/
theorem splitPart_length_pos (s : Str) : 1 ≤ (splitPart s).length := by
  unfold splitPart
  cases h : findSemi (s.drop (s.length / 2)) <;> simp

/-- `totalSemis + length` is invariant under `subdivide`. -/
theorem totalSemis_add_length_subdivide (ps : List Str) :
    totalSemis (subdivide ps) + (subdivide ps).length
      = totalSemis ps + ps.length := by
  induction ps with
  | nil => rfl
  | cons s rest ih =>
    have h1 := splitPart_semis_add_length s
    simp only [subdivide, totalSemis, List.map_append, List.sum_append,
      List.length_append, List.map_cons, List.sum_cons, List.length_cons]
    simp only [totalSemis] at ih
    omega

/-- `subdivide` never shrinks the number of parts. -/
theorem length_le_length_subdivide (ps : List Str) :
    ps.length ≤ (subdivide ps).length := by
  induction ps with
  | nil => simp [subdivide]
  | cons s rest ih =>
    have h1 := splitPart_length_pos s
    simp only [subdivide, List.length_append, List.length_cons]
    omega

/-- When `subdivide` changes the part count, the total semicolon count
strictly drops: the termination measure of the chunking loop. -/
theorem totalSemis_subdivide_lt (ps : List Str)
    (h : (subdivide ps).length ≠ ps.length) :
    totalSemis (subdivide ps) < totalSemis ps := by
  have h1 := totalSemis_add_length_subdivide ps
  have h2 := length_le_length_subdivide ps
  omega

/-- Joining two nonempty part lists concatenates their joins around a `';'`. -/
theorem joinSemi_append : ∀ (as bs : List Str), as ≠ [] → bs ≠ [] →
    joinSemi (as ++ bs) = joinSemi as ++ ';' :: joinSemi bs := by
  intro as
  induction as with
  | nil => intro bs h; exact absurd rfl h
  | cons a as' ih =>
    intro bs _ hbs
    cases as' with
    | nil =>
      cases bs with
      | nil => exact absurd rfl hbs
      | cons b bs' => simp [joinSemi]
    | cons a' as'' =>
      have hih := ih bs (by simp) hbs
      simp only [List.cons_append] at hih ⊢
      have e1 : joinSemi (a :: a' :: (as'' ++ bs))
          = a ++ ';' :: joinSemi (a' :: (as'' ++ bs)) := rfl
      have e2 : joinSemi (a :: a' :: as'') = a ++ ';' :: joinSemi (a' :: as'') := rfl
      rw [e1, e2, hih]
      simp

/-- `splitPart` loses no character: re-joining the pieces restores the part. -/
theorem joinSemi_splitPart (s : Str) : joinSemi (splitPart s) = s := by
  unfold splitPart
  cases h : findSemi (s.drop (s.length / 2)) with
  | none => simp [joinSemi]
  | some of =>
    have hdec := splitPart_decomp s of h
    simp only [joinSemi]
    exact hdec.symm

/-- `subdivide` partitions: re-joining the subdivided parts restores the
original join.  No value is lost, duplicated or reordered. -/
theorem joinSemi_subdivide : ∀ ps : List Str, joinSemi (subdivide ps) = joinSemi ps := by
  intro ps
  induction ps with
  | nil => rfl
  | cons s rest ih =>
    show joinSemi (splitPart s ++ subdivide rest) = _
    cases rest with
    | nil =>
      simp only [subdivide, List.append_nil]
      simp [joinSemi_splitPart s, joinSemi]
    | cons r rest' =>
      have hsp : splitPart s ≠ [] := by
        have := splitPart_length_pos s
        intro hc; rw [hc] at this; simp at this
      have hsub : subdivide (r :: rest') ≠ [] := by
        have := length_le_length_subdivide (r :: rest')
        intro hc; rw [hc] at this; simp at this
      rw [joinSemi_append _ _ hsp hsub, joinSemi_splitPart s, ih]
      have : (r :: rest') ≠ ([] : List Str) := by simp
      rw [show s :: r :: rest' = [s] ++ r :: rest' by simp,
        joinSemi_append [s] _ (by simp) this]
      simp [joinSemi]

/-- Every part is no longer than the `maxByLen` part (Python
`max(parts, key=len)`). -/
theorem length_le_maxByLen : ∀ (ps : List Str) (e : Str), e ∈ ps →
    e.length ≤ (maxByLen ps).length := by
  intro ps
  induction ps with
  | nil => intro e he; simp at he
  | cons s rest ih =>
    intro e he
    cases rest with
    | nil =>
      simp at he
      simp [he, maxByLen]
    | cons t rest' =>
      simp only [maxByLen]
      rcases List.mem_cons.mp he with h | h
      · subst h
        split <;> omega
      · have := ih e h
        split <;> omega

/-- The formatted URL's length is monotone in the length of the value bound to
the substituted variable (all other bindings fixed). -/
theorem fmt_updateB_length_mono (t : Template) (kw : Bindings) (x : String)
    (v w : Str) (h : v.length ≤ w.length) :
    (fmt t (updateB kw x v)).length ≤ (fmt t (updateB kw x w)).length := by
  induction t with
  | nil => simp [fmt]
  | cons p rest ih =>
    cases p with
    | lit s => simp only [fmt, List.length_append]; omega
    | hole y =>
      simp only [fmt, List.length_append, updateB]
      by_cases hy : y = x <;> simp [hy] <;> omega

/-- Any two sufficient fuels drive `chunkLoopF` to the same result. -/
theorem chunkLoopF_congr (maxlen : Nat) (t : Template) (x : String)
    (kw : Bindings) : ∀ fuel fuel' parts, totalSemis parts < fuel →
    totalSemis parts < fuel' →
    chunkLoopF maxlen t x kw fuel parts = chunkLoopF maxlen t x kw fuel' parts := by
  intro fuel
  induction fuel with
  | zero => intro fuel' parts h; omega
  | succ f ih =>
    intro fuel' parts h h'
    cases fuel' with
    | zero => omega
    | succ f' =>
      simp only [chunkLoopF]
      by_cases h1 : (fmt t (updateB kw x (maxByLen parts))).length < maxlen
      · simp [h1]
      · by_cases h2 : (subdivide parts).length = parts.length
        · simp [h1, h2]
        · simp only [h1, h2, if_false, if_neg]
          have hlt := totalSemis_subdivide_lt parts h2
          exact ih f' (subdivide parts) (by omega) (by omega)

/-- `chunkLoop` satisfies the loop's one-step unfolding. -/
theorem chunkLoop_eq (maxlen : Nat) (t : Template) (x : String) (kw : Bindings)
    (parts : List Str) :
    chunkLoop maxlen t x kw parts =
      if (fmt t (updateB kw x (maxByLen parts))).length < maxlen then
        (parts, true)
      else if (subdivide parts).length = parts.length then
        (parts, false)
      else
        chunkLoop maxlen t x kw (subdivide parts) := by
  show chunkLoopF maxlen t x kw (totalSemis parts + 1) parts = _
  simp only [chunkLoopF]
  by_cases h1 : (fmt t (updateB kw x (maxByLen parts))).length < maxlen
  · simp [h1]
  · by_cases h2 : (subdivide parts).length = parts.length
    · simp [h1, h2]
    · simp only [h1, h2, if_false, if_neg]
      have hlt := totalSemis_subdivide_lt parts h2
      exact chunkLoopF_congr maxlen t x kw _ _ (subdivide parts) (by omega)
        (by omega)

/-- The chunking loop never loses, duplicates or reorders values: re-joining
its final parts with `';'` restores the join of the starting parts. -/
theorem chunkLoopF_join (maxlen : Nat) (t : Template) (x : String)
    (kw : Bindings) : ∀ fuel ps,
    joinSemi (chunkLoopF maxlen t x kw fuel ps).1 = joinSemi ps := by
  intro fuel
  induction fuel with
  | zero => intro ps; rfl
  | succ f ih =>
    intro ps
    simp only [chunkLoopF]
    by_cases h1 : (fmt t (updateB kw x (maxByLen ps))).length < maxlen
    · simp [h1]
    · by_cases h2 : (subdivide ps).length = ps.length
      · simp [h1, h2]
      · simp only [h1, h2, if_false, if_neg]
        rw [ih (subdivide ps)]
        exact joinSemi_subdivide ps

/-- `chunkLoop` preserves the `';'`-join of the parts it is given. -/
theorem chunkLoop_join (maxlen : Nat) (t : Template) (x : String)
    (kw : Bindings) (ps : List Str) :
    joinSemi (chunkLoop maxlen t x kw ps).1 = joinSemi ps :=
  chunkLoopF_join maxlen t x kw _ ps

/-- On success, every final chunk substitutes to a URL strictly under the
ceiling: the loop's guard tests the longest chunk and URL length is monotone
in chunk length. -/
theorem chunkLoopF_success_lt (maxlen : Nat) (t : Template) (x : String)
    (kw : Bindings) : ∀ fuel ps P, chunkLoopF maxlen t x kw fuel ps = (P, true) →
    ∀ e ∈ P, (fmt t (updateB kw x e)).length < maxlen := by
  intro fuel
  induction fuel with
  | zero => intro ps P hP; simp [chunkLoopF] at hP
  | succ f ih =>
    intro ps P hP e he
    simp only [chunkLoopF] at hP
    by_cases h1 : (fmt t (updateB kw x (maxByLen ps))).length < maxlen
    · simp [h1] at hP
      rw [← hP] at he
      calc (fmt t (updateB kw x e)).length
          ≤ (fmt t (updateB kw x (maxByLen ps))).length :=
            fmt_updateB_length_mono t kw x e (maxByLen ps)
              (length_le_maxByLen ps e he)
        _ < maxlen := h1
    · by_cases h2 : (subdivide ps).length = ps.length
      · simp [h1, h2] at hP
      · simp only [h1, h2, if_false, if_neg] at hP
        exact ih (subdivide ps) P hP e he

/-- `chunkLoop` success instance of `chunkLoopF_success_lt`. -/
theorem chunkLoop_success_lt (maxlen : Nat) (t : Template) (x : String)
    (kw : Bindings) (ps P : List Str)
    (h : chunkLoop maxlen t x kw ps = (P, true)) :
    ∀ e ∈ P, (fmt t (updateB kw x e)).length < maxlen :=
  chunkLoopF_success_lt maxlen t x kw _ ps P h

/-- On exhaustion the loop's final parts can no longer be subdivided and still
overflow the ceiling at their longest chunk. -/
theorem chunkLoopF_fail (maxlen : Nat) (t : Template) (x : String)
    (kw : Bindings) : ∀ fuel ps P, totalSemis ps < fuel →
    chunkLoopF maxlen t x kw fuel ps = (P, false) →
    ¬ (fmt t (updateB kw x (maxByLen P))).length < maxlen ∧
      (subdivide P).length = P.length := by
  intro fuel
  induction fuel with
  | zero => intro ps P h; omega
  | succ f ih =>
    intro ps P hfuel hP
    simp only [chunkLoopF] at hP
    by_cases h1 : (fmt t (updateB kw x (maxByLen ps))).length < maxlen
    · simp [h1] at hP
    · by_cases h2 : (subdivide ps).length = ps.length
      · simp [h1, h2] at hP
        rw [← hP]
        exact ⟨h1, h2⟩
      · simp only [h1, h2, if_false, if_neg] at hP
        have hlt := totalSemis_subdivide_lt ps h2
        exact ih (subdivide ps) P (by omega) hP

/-- `chunkLoop` exhaustion instance of `chunkLoopF_fail`. -/
theorem chunkLoop_fail (maxlen : Nat) (t : Template) (x : String)
    (kw : Bindings) (ps P : List Str)
    (h : chunkLoop maxlen t x kw ps = (P, false)) :
    ¬ (fmt t (updateB kw x (maxByLen P))).length < maxlen ∧
      (subdivide P).length = P.length :=
  chunkLoopF_fail maxlen t x kw _ ps P (by omega) h

/-- The chunking loop never returns an empty part list from a nonempty one. -/
theorem chunkLoopF_fst_ne_nil (maxlen : Nat) (t : Template) (x : String)
    (kw : Bindings) : ∀ fuel ps, ps ≠ [] →
    (chunkLoopF maxlen t x kw fuel ps).1 ≠ [] := by
  intro fuel
  induction fuel with
  | zero => intro ps h; exact h
  | succ f ih =>
    intro ps hne
    simp only [chunkLoopF]
    by_cases h1 : (fmt t (updateB kw x (maxByLen ps))).length < maxlen
    · simp [h1, hne]
    · by_cases h2 : (subdivide ps).length = ps.length
      · simp [h1, h2, hne]
      · simp only [h1, h2, if_false, if_neg]
        apply ih
        intro hc
        have := length_le_length_subdivide ps
        rw [hc] at this
        simp at this
        simp [this] at hne

/-- `chunkLoop` nonemptiness instance of `chunkLoopF_fst_ne_nil`. -/
theorem chunkLoop_fst_ne_nil (maxlen : Nat) (t : Template) (x : String)
    (kw : Bindings) (ps : List Str) (h : ps ≠ []) :
    (chunkLoop maxlen t x kw ps).1 ≠ [] :=
  chunkLoopF_fst_ne_nil maxlen t x kw _ ps h

/-- Every URL yielded by the fallback loop comes from one of the per-chunk
sub-generations. -/
theorem refetchParts_fst_lt (maxlen : Nat) (F : Bindings → List Str × Bool)
    (x : String) (kw : Bindings)
    (hF : ∀ kw2 u, u ∈ (F kw2).1 → u.length < maxlen) :
    ∀ es u, u ∈ (refetchParts F x kw es).1 → u.length < maxlen := by
  intro es
  induction es with
  | nil => intro u hu; simp [refetchParts] at hu
  | cons e es' ih =>
    intro u hu
    simp only [refetchParts] at hu
    by_cases h : (F (updateB kw x e)).2
    · simp [h] at hu
      exact hF _ u hu
    · simp [h] at hu
      rcases hu with hu | hu
      · exact hF _ u hu
      · exact ih u hu

/-- The fallback loop raises `URLError` exactly when some chunk's
sub-generation raises (generation stops at the first such chunk). -/
theorem refetchParts_snd (F : Bindings → List Str × Bool) (x : String)
    (kw : Bindings) : ∀ es, (refetchParts F x kw es).2
      = es.any (fun e => (F (updateB kw x e)).2) := by
  intro es
  induction es with
  | nil => simp [refetchParts]
  | cons e es' ih =>
    simp only [refetchParts, List.any_cons]
    by_cases h : (F (updateB kw x e)).2 <;> simp [h, ih]

/-- When chunking the current variable succeeds, `_refetch_url` yields one
formatted URL per chunk, in order, and raises nothing. -/
theorem refetchUrl_success (maxlen : Nat) (t : Template) (x : String)
    (vars : List String) (kw : Bindings) (P : List Str)
    (h : chunkLoop maxlen t x kw [kw x] = (P, true)) :
    refetchUrl maxlen t x vars kw
      = (P.map (fun e => fmt t (updateB kw x e)), false) := by
  rw [refetchUrl.eq_def, h]

/-- When the current variable is exhausted and no variables remain,
`_refetch_url` raises `URLError` having yielded nothing. -/
theorem refetchUrl_exhaust_nil (maxlen : Nat) (t : Template) (x : String)
    (kw : Bindings) (P : List Str)
    (h : chunkLoop maxlen t x kw [kw x] = (P, false)) :
    refetchUrl maxlen t x [] kw = ([], true) := by
  rw [refetchUrl.eq_def, h]

/-- When the current variable is exhausted and variables remain,
`_refetch_url` falls back: each final chunk is held fixed and the next
variable is chunked recursively. -/
theorem refetchUrl_exhaust_cons (maxlen : Nat) (t : Template) (x : String)
    (kw : Bindings) (P : List Str) (y : String) (rest : List String)
    (h : chunkLoop maxlen t x kw [kw x] = (P, false)) :
    refetchUrl maxlen t x (y :: rest) kw
      = refetchParts (fun kw2 => refetchUrl maxlen t y rest kw2) x kw P := by
  rw [refetchUrl.eq_def, h]

/-- C1: for every URL template, bindings, and non-empty priority-ordered list
of chunkable variables (`x :: vars`), every concrete URL yielded by the URL
chunker `_refetch_url` has length strictly less than the configured maximum
URL length ceiling; no yielded URL ever reaches or exceeds the ceiling,
including URLs produced after falling back from an exhausted variable to a
later one (every yield site is guarded by the longest-chunk length test). -/
theorem refetchUrl_yield_under_ceiling (maxlen : Nat) (t : Template) :
    ∀ (x : String) (vars : List String) (kw : Bindings) (u : Str),
    u ∈ (refetchUrl maxlen t x vars kw).1 → u.length < maxlen := by
  intro x vars kw
  induction x, vars, kw using refetchUrl.induct maxlen t with
  | case1 vars x kw P h =>
    intro u hu
    rw [refetchUrl_success maxlen t x vars kw P h] at hu
    simp only [List.mem_map] at hu
    obtain ⟨e, he, hue⟩ := hu
    rw [← hue]
    exact chunkLoop_success_lt maxlen t x kw [kw x] P h e he
  | case2 x kw P h =>
    intro u hu
    rw [refetchUrl_exhaust_nil maxlen t x kw P h] at hu
    simp at hu
  | case3 x kw P h y rest ih =>
    intro u hu
    rw [refetchUrl_exhaust_cons maxlen t x kw P y rest h] at hu
    exact refetchParts_fst_lt maxlen _ x kw ih P u hu

/-- C1 witness: a URL actually yielded by the chunker at the module ceiling
`api_maxlen`, shown under the ceiling by the theorem. -/
theorem refetchUrl_yield_under_ceiling_witness :
    ("x/AAAAAAAAAAAAAAAAAAAA;BBBBBBBBBBBBBBBBBBBB;CCCCCCCCCCCCCCCCCCCC".toList).length
      < api_maxlen :=
  refetchUrl_yield_under_ceiling api_maxlen tmplXV "v" [] kwXV _ (by decide)

/-- C2: when the chunking loop for the variable being chunked succeeds, the
URLs yielded are exactly the final chunks substituted into the template in
order, and concatenating the chunk strings in yield order with `';'`
separators reconstructs the original semicolon-joined value string exactly: no
value is lost, duplicated, or reordered. -/
theorem refetchUrl_chunks_partition (maxlen : Nat) (t : Template) (x : String)
    (vars : List String) (kw : Bindings) (P : List Str)
    (h : chunkLoop maxlen t x kw [kw x] = (P, true)) :
    refetchUrl maxlen t x vars kw
      = (P.map (fun e => fmt t (updateB kw x e)), false)
    ∧ joinSemi P = kw x := by
  refine ⟨refetchUrl_success maxlen t x vars kw P h, ?_⟩
  have hj := chunkLoop_join maxlen t x kw [kw x]
  rw [h] at hj
  exact hj

/-- C2 witness: the spec's ceiling-50 example.  The chunker yields two URLs
whose `v` chunks re-join to the original value string. -/
theorem refetchUrl_chunks_partition_witness :
    refetchUrl 50 tmplXV "v" [] kwXV
      = (["x/AAAAAAAAAAAAAAAAAAAA;BBBBBBBBBBBBBBBBBBBB".toList,
          "x/CCCCCCCCCCCCCCCCCCCC".toList], false)
    ∧ joinSemi ["AAAAAAAAAAAAAAAAAAAA;BBBBBBBBBBBBBBBBBBBB".toList,
        "CCCCCCCCCCCCCCCCCCCC".toList] = kwXV "v" := by
  have h := refetchUrl_chunks_partition 50 tmplXV "v" [] kwXV
    ["AAAAAAAAAAAAAAAAAAAA;BBBBBBBBBBBBBBBBBBBB".toList,
     "CCCCCCCCCCCCCCCCCCCC".toList] (by decide)
  refine ⟨?_, h.2⟩
  rw [h.1]
  decide

/-- C4: priority fallback and error surfacing.  (i) When the current variable
is exhausted with final chunks `P` and variables remain, the chunker falls
back to chunking the next variable with each chunk of the exhausted variable
held fixed, and `URLError` is raised exactly when some fixed chunk's
sub-generation raises; (ii) with no variable remaining, exhaustion raises
`URLError`; (iii) when chunking the current variable succeeds no error is
raised; (iv) `refetch` surfaces the `ValueError` naming the offending template
exactly when `_refetch_url` raises `URLError`. -/
theorem refetch_fallback_and_error (maxlen : Nat) (t : Template) :
    (∀ (x y : String) (rest : List String) (kw : Bindings) (P : List Str),
        chunkLoop maxlen t x kw [kw x] = (P, false) →
        refetchUrl maxlen t x (y :: rest) kw
            = refetchParts (fun kw2 => refetchUrl maxlen t y rest kw2) x kw P
          ∧ (refetchUrl maxlen t x (y :: rest) kw).2
            = P.any (fun e => (refetchUrl maxlen t y rest (updateB kw x e)).2))
    ∧ (∀ (x : String) (kw : Bindings) (P : List Str),
        chunkLoop maxlen t x kw [kw x] = (P, false) →
        refetchUrl maxlen t x [] kw = ([], true))
    ∧ (∀ (x : String) (vars : List String) (kw : Bindings) (P : List Str),
        chunkLoop maxlen t x kw [kw x] = (P, true) →
        (refetchUrl maxlen t x vars kw).2 = false)
    ∧ (∀ (v : String) (rest : List String) (kw : Bindings),
        (refetch maxlen t (v :: rest) kw).2 = some (.valueError t)
          ↔ (refetchUrl maxlen t v rest kw).2 = true) := by
  refine ⟨?_, ?_, ?_, ?_⟩
  · intro x y rest kw P h
    have he := refetchUrl_exhaust_cons maxlen t x kw P y rest h
    refine ⟨he, ?_⟩
    rw [he]
    exact refetchParts_snd _ x kw P
  · intro x kw P h
    exact refetchUrl_exhaust_nil maxlen t x kw P h
  · intro x vars kw P h
    rw [refetchUrl_success maxlen t x vars kw P h]
  · intro v rest kw
    show (if (refetchUrl maxlen t v rest kw).2 then some (RefetchError.valueError t)
        else none) = some (RefetchError.valueError t)
      ↔ (refetchUrl maxlen t v rest kw).2 = true
    by_cases h : (refetchUrl maxlen t v rest kw).2 <;> simp [h]

/-- C4 witness: with ceiling 20 the `series` value is a single unsplittable
token that overflows, so the chunker falls back to `economy`, whose chunking
succeeds: no error is raised and two URLs result.  At ceiling 17 the error
surfaces exactly when `_refetch_url` raises. -/
theorem refetch_fallback_and_error_witness :
    (refetchUrl 20 tmplSE "series" ["economy"] kwSE
        = refetchParts (fun kw2 => refetchUrl 20 tmplSE "economy" [] kw2)
            "series" kwSE ["AAAAAAAAAAAA".toList]
      ∧ (refetchUrl 20 tmplSE "series" ["economy"] kwSE).2
        = (["AAAAAAAAAAAA".toList].any
            (fun e => (refetchUrl 20 tmplSE "economy" []
              (updateB kwSE "series" e)).2)))
    ∧ ((refetch 17 tmplSE ["series", "economy"] kwSE).2
          = some (.valueError tmplSE)
        ↔ (refetchUrl 17 tmplSE "series" ["economy"] kwSE).2 = true) := by
  refine ⟨(refetch_fallback_and_error 20 tmplSE).1 "series" "economy" [] kwSE
    ["AAAAAAAAAAAA".toList] (by decide), ?_⟩
  exact (refetch_fallback_and_error 17 tmplSE).2.2.2 "series" ["economy"] kwSE

/-- C10: calling `refetch` with an empty `variables` list fails with
`IndexError` from `variables[0]`, not with the user-facing ValueError and
not by fetching the URL unchunked: no URL at all is produced.  `IndexError`
is distinct from every `ValueError`. -/
theorem refetch_empty_variables_indexError (maxlen : Nat) (t : Template)
    (kw : Bindings) :
    refetch maxlen t [] kw = ([], some .indexError)
    ∧ ∀ t' : Template, RefetchError.indexError ≠ RefetchError.valueError t' := by
  exact ⟨rfl, fun t' h => RefetchError.noConfusion h⟩

/-- C3: when the server reports `total = 2500` on the first page and
`per_page = 1000` in every page header (later totals are unconstrained —
`fetch` reads the total from the first page's header only), `fetch` issues
exactly 3 page requests with page parameter 1, 2, 3 in that order, yields
every record of pages 1, 2, 3 in page order with intra-page order preserved,
and terminates because the running read count, advanced by the header's
reported `per_page` after each page, reaches the total; when the three pages
hold 1000, 1000 and 500 records, exactly 2500 records are yielded. -/
theorem fetch_three_pages (α : Type) (server : Nat → PageResponse α) (fuel : Nat)
    (htotal : (server 1).total = 2500)
    (hpp : ∀ p, (server p).per_page = 1000)
    (hfuel : 3 ≤ fuel) :
    fetch server fuel
      = ([1, 2, 3],
         (server 1).records ++ ((server 2).records ++ (server 3).records))
    ∧ ((server 1).records.length = 1000 → (server 2).records.length = 1000 →
        (server 3).records.length = 500 → (fetch server fuel).2.length = 2500) := by
  obtain ⟨k, rfl⟩ : ∃ k, fuel = k + 3 := ⟨fuel - 3, by omega⟩
  have htail : ∀ p, fetchGo server (some 2500) 3000 p k = ([], []) := by
    intro p
    cases k with
    | zero => rfl
    | succ k' => simp [fetchGo, shouldContinue]
  have hmain : fetch server (k + 3)
      = ([1, 2, 3],
         (server 1).records ++ ((server 2).records ++ (server 3).records)) := by
    show fetchGo server none 0 1 (k + 3) = _
    rw [show k + 3 = k + 2 + 1 by omega]
    simp only [fetchGo, shouldContinue, htotal, hpp, Option.getD_none,
      Option.getD_some]
    norm_num
    rw [htail 4]
    simp
  refine ⟨hmain, ?_⟩
  intro h1 h2 h3
  rw [hmain]
  simp [h1, h2, h3]

/-- C3 witness: the concrete three-page server fixture. -/
theorem fetch_three_pages_witness :
    fetch serverW 3
      = ([1, 2, 3],
         (serverW 1).records ++ ((serverW 2).records ++ (serverW 3).records))
    ∧ (fetch serverW 3).2.length = 2500 := by
  have h := fetch_three_pages Nat serverW 3 rfl
    (by intro p; simp only [serverW]; split_ifs <;> rfl) (by omega)
  exact ⟨h.1, h.2 (by simp [serverW]) (by simp [serverW]) (by simp [serverW])⟩

/-- Setting a key makes it the first lookup result. -/
theorem dictGet_dictSet_self {β : Type} : ∀ (d : Dict β) (k : String) (v : β),
    dictGet (dictSet d k v) k = some v := by
  intro d k v
  induction d with
  | nil => simp [dictSet, dictGet]
  | cons kv rest ih =>
    obtain ⟨k', v'⟩ := kv
    by_cases hk : k' = k
    · simp [dictSet, dictGet, hk]
    · simp [dictSet, dictGet, hk, ih]

/-- Setting one key leaves lookups of other keys unchanged. -/
theorem dictGet_dictSet_ne {β : Type} : ∀ (d : Dict β) (k k' : String) (v : β),
    k' ≠ k → dictGet (dictSet d k v) k' = dictGet d k' := by
  intro d k k' v h
  have h' : ¬ k = k' := fun hc => h hc.symm
  induction d with
  | nil => simp [dictSet, dictGet, h']
  | cons kv rest ih =>
    obtain ⟨k1, v1⟩ := kv
    by_cases hk : k1 = k
    · subst hk
      simp only [dictSet, if_pos rfl]
      simp [dictGet, h']
    · simp only [dictSet, hk, if_false, if_neg]
      by_cases hk' : k1 = k' <;> simp [dictGet, hk', ih]

/-- A key absent from a lookup dict yields `none`. -/
theorem dictGet_eq_none_iff {β : Type} : ∀ (d : Dict β) (k : String),
    dictGet d k = none ↔ k ∉ d.map Prod.fst := by
  intro d k
  induction d with
  | nil => simp [dictGet]
  | cons kv rest ih =>
    obtain ⟨k1, v1⟩ := kv
    by_cases hk : k1 = k <;> simp [dictGet, hk, ih, Ne.symm]

/-- Updating with pairs whose keys avoid `k` leaves `k`'s lookup unchanged. -/
theorem dictGet_dictUpdate_not_mem {β : Type} : ∀ (src d : Dict β) (k : String),
    k ∉ src.map Prod.fst → dictGet (dictUpdate d src) k = dictGet d k := by
  intro src
  induction src with
  | nil => intro d k h; rfl
  | cons kv rest ih =>
    intro d k h
    simp only [List.map_cons, List.mem_cons] at h
    push_neg at h
    show dictGet (dictUpdate (dictSet d kv.1 kv.2) rest) k = _
    rw [ih _ k h.2, dictGet_dictSet_ne _ _ _ _ h.1]

/-- Updating with a dict that binds `k` (keys unique, as in a real Python
dict) makes `k` look up `src`'s value. -/
theorem dictGet_dictUpdate_mem {β : Type} : ∀ (src d : Dict β) (k : String)
    (v : β), (src.map Prod.fst).Nodup → dictGet src k = some v →
    dictGet (dictUpdate d src) k = some v := by
  intro src
  induction src with
  | nil => intro d k v _ h; simp [dictGet] at h
  | cons kv rest ih =>
    intro d k v hnd hget
    obtain ⟨k1, v1⟩ := kv
    simp only [List.map_cons, List.nodup_cons] at hnd
    show dictGet (dictUpdate (dictSet d k1 v1) rest) k = some v
    by_cases hk : k1 = k
    · subst hk
      simp [dictGet] at hget
      rw [dictGet_dictUpdate_not_mem rest _ k1 hnd.1,
        dictGet_dictSet_self, hget]
    · simp only [dictGet, hk, if_false, if_neg] at hget
      exact ih _ k v hnd.2 hget

/-- C8: `fetch` always forces the query parameters `page` to 1 and `format`
to `'json'`, overwriting any values the caller supplies in `params` (they are
written after `params_.update(params)`), whereas a caller-supplied `per_page`
overrides the module-level default (written before the update); `get` forces
`per_page` to 1 regardless of the caller's params, alongside `page = 1` and
`format = 'json'`. -/
theorem fetch_get_params_forced (d : Nat) (params : Dict PVal)
    (hnd : (params.map Prod.fst).Nodup) :
    dictGet (fetchParams d params) "page" = some (.nat 1)
    ∧ dictGet (fetchParams d params) "format" = some (.str "json")
    ∧ (∀ v, dictGet params "per_page" = some v →
        dictGet (fetchParams d params) "per_page" = some v)
    ∧ (dictGet params "per_page" = none →
        dictGet (fetchParams d params) "per_page" = some (.nat d))
    ∧ dictGet (getParams params) "per_page" = some (.nat 1)
    ∧ dictGet (getParams params) "page" = some (.nat 1)
    ∧ dictGet (getParams params) "format" = some (.str "json") := by
  refine ⟨?_, ?_, ?_, ?_, ?_, ?_, ?_⟩
  · rw [fetchParams, dictGet_dictSet_ne _ _ _ _ (by decide), dictGet_dictSet_self]
  · rw [fetchParams, dictGet_dictSet_self]
  · intro v hv
    rw [fetchParams, dictGet_dictSet_ne _ _ _ _ (by decide),
      dictGet_dictSet_ne _ _ _ _ (by decide)]
    exact dictGet_dictUpdate_mem params _ _ v hnd hv
  · intro hv
    rw [fetchParams, dictGet_dictSet_ne _ _ _ _ (by decide),
      dictGet_dictSet_ne _ _ _ _ (by decide),
      dictGet_dictUpdate_not_mem params _ _ ((dictGet_eq_none_iff _ _).mp hv)]
    rfl
  · rw [getParams, dictGet_dictSet_self]
  · rw [getParams, dictGet_dictSet_ne _ _ _ _ (by decide),
      dictGet_dictSet_ne _ _ _ _ (by decide), dictGet_dictSet_self]
  · rw [getParams, dictGet_dictSet_ne _ _ _ _ (by decide), dictGet_dictSet_self]

/-- C8 witness: a caller tries to override everything; `page` and `format`
still come out forced, while the caller's `per_page` survives in `fetch` and
is forced to 1 in `get`. -/
theorem fetch_get_params_forced_witness :
    dictGet (fetchParams 1000 paramsW) "page" = some (.nat 1)
    ∧ dictGet (fetchParams 1000 paramsW) "format" = some (.str "json")
    ∧ dictGet (fetchParams 1000 paramsW) "per_page" = some (.nat 7)
    ∧ dictGet (getParams paramsW) "per_page" = some (.nat 1) := by
  have h := fetch_get_params_forced 1000 paramsW (by decide)
  exact ⟨h.1, h.2.1, h.2.2.1 _ rfl, h.2.2.2.2.1⟩

/-- C6: when the HTTP status code is not 200, `_queryAPI` raises the typed
API error carrying that status code and the server-supplied reason string,
for every body whatsoever — including one that cannot be decoded — so no
decode step is attempted. -/
theorem queryAPI_non200 (code : Nat) (reason : String) (body : Option JVal)
    (h : code ≠ 200) :
    queryAPI ⟨code, reason, body⟩ = .error (.transport code reason) := by
  simp [queryAPI, h]

/-- C6 witness: a 503 response with an undecodable body raises the transport
error with code 503 — the decode step is never reached. -/
theorem queryAPI_non200_witness :
    queryAPI ⟨503, "Service Unavailable", none⟩
      = .error (.transport 503 "Service Unavailable") :=
  queryAPI_non200 503 "Service Unavailable" none (by decide)

/-- C7 counterexample: `_responseObjects` accepts a list whose first element
is not a mapping — `[\x27hdr\x27, \x27payload\x27]` returns its second element
instead of failing with the shape error, because the code checks only
`type(result) is list and len(result) > 1`. -/
theorem responseObjects_nonmapping_list_counterexample :
    responseObjects (.jarr [.jstr "hdr", .jstr "payload"]) false
      = .ok (.jstr "payload")
    ∧ responseObjects (.jarr [.jstr "hdr", .jstr "payload"]) false
      ≠ .error .shape := by
  refine ⟨rfl, fun h => ?_⟩
  exact Except.noConfusion
    ((rfl : responseObjects (.jarr [.jstr "hdr", .jstr "payload"]) false
        = .ok (.jstr "payload")).symm.trans h)

/-- C7 (amended): `_responseObjects` recognizes a list envelope whenever the
body is a list with at least two elements, returning the second element with
no check on element types (the first-element-is-a-mapping check lives only in
`_responseHeader`); lists with fewer than two elements, mappings without a
`source` key, mappings with a falsy `source`, mappings whose `source` is a
string, and scalar bodies all fail with the shape error; `_responseHeader`
does fail with the shape error on a list whose first element is not a
mapping. -/
theorem responseObjects_shape_behavior (w : Bool) :
    (∀ (a b : JVal) (rest : List JVal),
        responseObjects (.jarr (a :: b :: rest)) w = .ok b)
    ∧ (∀ l : List JVal, l.length ≤ 1 →
        responseObjects (.jarr l) w = .error .shape)
    ∧ (∀ o : List (String × JVal), jget o "source" = none →
        responseObjects (.jobj o) w = .error .shape)
    ∧ (∀ (o : List (String × JVal)) (src : JVal), jget o "source" = some src →
        truthy src = false → responseObjects (.jobj o) w = .error .shape)
    ∧ (∀ (o : List (String × JVal)) (s : String),
        jget o "source" = some (.jstr s) →
        responseObjects (.jobj o) w = .error .shape)
    ∧ responseObjects .jnull w = .error .shape
    ∧ (∀ n : Int, responseObjects (.jnum n) w = .error .shape)
    ∧ (∀ s : String, responseObjects (.jstr s) w = .error .shape)
    ∧ (∀ (v : JVal) (rest : List JVal), (∀ o, v ≠ .jobj o) →
        responseHeader (.jarr (v :: rest)) = .error .shape) := by
  refine ⟨fun a b rest => rfl, ?_, ?_, ?_, ?_, rfl, fun n => rfl, fun s => rfl, ?_⟩
  · intro l hl
    cases l with
    | nil => rfl
    | cons a t =>
      cases t with
      | nil => rfl
      | cons b t' => simp at hl
  · intro o h
    simp only [responseObjects]
    rw [h]
  · intro o src h htr
    simp only [responseObjects]
    rw [h]
    simp [htr]
  · intro o s h
    simp only [responseObjects, h]
    split <;> rfl
  · intro v rest h
    cases v with
    | jobj o => exact absurd rfl (h o)
    | jnull => rfl
    | jnum n => rfl
    | jstr s => rfl
    | jarr l => rfl

/-- C7 witness: a proper list envelope is accepted, a one-element list and a
sourceless mapping fail with the shape error. -/
theorem responseObjects_shape_behavior_witness :
    responseObjects (.jarr [.jobj [("total", .jnum 5)], .jarr [.jnum 1]]) false
      = .ok (.jarr [.jnum 1])
    ∧ responseObjects (.jarr [.jobj [("total", .jnum 5)]]) false = .error .shape
    ∧ responseObjects (.jobj [("page", .jnum 1)]) true = .error .shape := by
  have h := responseObjects_shape_behavior false
  have h2 := responseObjects_shape_behavior true
  exact ⟨h.1 _ _ _, h.2.1 _ (by simp), h2.2.2.1 _ rfl⟩

/-- Every entity the accumulator loop emits has a truthy concept: emission is
always guarded by `if m.concept:`. -/
theorem metaGo_mem_truthy : ∀ (quads : List MetaQuad) (m e : MetadataEntity),
    e ∈ metaGo m quads → truthyOpt e.concept = true := by
  intro quads
  induction quads with
  | nil =>
    intro m e he
    simp only [metaGo] at he
    by_cases ht : truthyOpt m.concept = true
    · simp [ht] at he
      subst he
      exact ht
    · simp [ht] at he
  | cons q rest ih =>
    obtain ⟨c, v, f⟩ := q
    intro m e he
    simp only [metaGo] at he
    by_cases hkey : m.concept ≠ some c ∨ m.id ≠ some v
    · rw [if_pos hkey] at he
      rcases List.mem_append.mp he with h1 | h1
      · by_cases ht : truthyOpt m.concept = true
        · simp [ht] at h1
          subst h1
          exact ht
        · simp [ht] at h1
      · exact ih _ e h1
    · rw [if_neg hkey] at he
      exact ih _ e he

/-- While the triples' key matches the open accumulator, the loop only folds
the fields into the accumulator's dict and emits nothing. -/
theorem metaGo_run_consume : ∀ (fs : List MetaField) (rest : List MetaQuad)
    (c v : String) (d : Dict String),
    metaGo ⟨some c, some v, d⟩ (fs.map (fun f => (c, v, f)) ++ rest)
      = metaGo ⟨some c, some v,
          fs.foldl (fun d2 f => dictSet d2 f.id f.value) d⟩ rest := by
  intro fs
  induction fs with
  | nil => intro rest c v d; rfl
  | cons f fs' ih =>
    intro rest c v d
    simp only [List.map_cons, List.cons_append, metaGo]
    have hcond : ¬ ((⟨some c, some v, d⟩ : MetadataEntity).concept ≠ some c
        ∨ (⟨some c, some v, d⟩ : MetadataEntity).id ≠ some v) := by simp
    rw [if_neg hcond]
    exact ih rest c v (dictSet d f.id f.value)

/-- The accumulator loop over a run decomposition, starting from an open
accumulator whose key differs from the first run's key: the accumulator is
emitted when truthy, then each run is assembled and emitted in order (runs
with a falsy concept are silently dropped). -/
theorem metaGo_runs : ∀ (runs : List MetaRun),
    List.Chain' (fun a b => a.1 ≠ b.1) runs →
    (∀ r ∈ runs, r.2 ≠ []) →
    ∀ (c v : String) (d : Dict String),
    (∀ r, runs.head? = some r → r.1 ≠ (c, v)) →
    metaGo ⟨some c, some v, d⟩ (runsToQuads runs)
      = (if truthyOpt (some c) then [⟨some c, some v, d⟩] else [])
        ++ (runs.filter (fun r => truthyOpt (some r.1.1))).map runEntity := by
  intro runs
  induction runs with
  | nil =>
    intro _ _ c v d _
    simp only [runsToQuads, List.flatMap_nil, metaGo, List.filter_nil,
      List.map_nil, List.append_nil]
  | cons r more ih =>
    obtain ⟨⟨c', v'⟩, fs⟩ := r
    intro hch hne c v d hhd
    obtain ⟨f, fs', rfl⟩ : ∃ f fs', fs = f :: fs' := by
      cases fs with
      | nil => exact absurd rfl (hne ((c', v'), []) (List.mem_cons_self _ _))
      | cons f fs' => exact ⟨f, fs', rfl⟩
    rw [List.chain'_cons'] at hch
    have hkey : ((c', v'), f :: fs').1 ≠ (c, v) := hhd _ rfl
    show metaGo ⟨some c, some v, d⟩
        (((c', v', f) :: fs'.map (fun f2 => (c', v', f2))) ++ runsToQuads more)
      = _
    simp only [List.cons_append, metaGo, List.append_eq]
    rw [if_pos ?cond]
    case cond =>
      by_cases hc : c = c'
      · right
        simp only [ne_eq, Option.some.injEq]
        intro hv
        exact hkey (by simp [hc, hv])
      · left
        simp [hc]
    rw [metaGo_run_consume fs' (runsToQuads more) c' v'
      (dictSet [] f.id f.value)]
    rw [ih hch.2 (fun r2 hr2 => hne r2 (List.mem_cons_of_mem _ hr2)) c' v' _
      (fun r2 hr2 => (hch.1 r2 hr2).symm)]
    simp only [List.filter_cons]
    by_cases ht : truthyOpt (some c') = true
    · simp [ht, runEntity]
    · simp [ht]

/-- C5: for every contiguous stream of concept records, flattened into
maximal key runs (adjacent runs have distinct (concept id, variable id) keys,
each run nonempty), the metadata assembler emits exactly one entity per
truthy-keyed run, in order: it accumulates field → value pairs into one open
entity, emits it exactly when the next flattened triple's key differs, and
emits the final entity after the stream ends.  In particular the records
A1, A1, B2 with fields x:1, y:2, z:3 produce exactly the two entities
A1 with x:1, y:2 then B2 with z:3, and a later value for a duplicate field id
within one entity overwrites the earlier one (last write wins). -/
theorem metadata_assembler_runs :
    (∀ runs : List MetaRun, List.Chain' (fun a b => a.1 ≠ b.1) runs →
        (∀ r ∈ runs, r.2 ≠ []) →
        metaGo ⟨none, none, []⟩ (runsToQuads runs)
          = (runs.filter (fun r => truthyOpt (some r.1.1))).map runEntity)
    ∧ metadataModel none [rowA1x, rowA1y, rowB2z]
        = [⟨some "A", some "1", [("x", "1"), ("y", "2")]⟩,
           ⟨some "B", some "2", [("z", "3")]⟩]
    ∧ metadataModel none [rowDup] = [⟨some "A", some "1", [("x", "2")]⟩] := by
  refine ⟨?_, by decide, by decide⟩
  intro runs hch hne
  cases runs with
  | nil => rfl
  | cons r more =>
    obtain ⟨⟨c', v'⟩, fs⟩ := r
    obtain ⟨f, fs', rfl⟩ : ∃ f fs', fs = f :: fs' := by
      cases fs with
      | nil => exact absurd rfl (hne ((c', v'), []) (List.mem_cons_self _ _))
      | cons f fs' => exact ⟨f, fs', rfl⟩
    rw [List.chain'_cons'] at hch
    show metaGo ⟨none, none, []⟩
        (((c', v', f) :: fs'.map (fun f2 => (c', v', f2))) ++ runsToQuads more)
      = _
    simp only [List.cons_append, metaGo, List.append_eq]
    rw [if_pos (by left; simp)]
    rw [show (if truthyOpt (⟨none, none, []⟩ : MetadataEntity).concept
        then [(⟨none, none, []⟩ : MetadataEntity)] else []) = [] from rfl]
    rw [metaGo_run_consume fs' (runsToQuads more) c' v'
      (dictSet [] f.id f.value)]
    rw [metaGo_runs more hch.2
      (fun r2 hr2 => hne r2 (List.mem_cons_of_mem _ hr2)) c' v' _
      (fun r2 hr2 => (hch.1 r2 hr2).symm)]
    simp only [List.filter_cons, List.nil_append]
    by_cases ht : truthyOpt (some c') = true
    · simp [ht, runEntity]
    · simp [ht]

/-- C5 witness: the A1, A1, B2 scenario as its run decomposition (the two A1
records form one run of two fields), fed to the general run theorem. -/
theorem metadata_assembler_runs_witness :
    metaGo ⟨none, none, []⟩ (runsToQuads
        [(("A", "1"), [MetaField.mk "x" "1", MetaField.mk "y" "2"]),
         (("B", "2"), [MetaField.mk "z" "3"])])
      = ([(("A", "1"), [MetaField.mk "x" "1", MetaField.mk "y" "2"]),
          (("B", "2"), [MetaField.mk "z" "3"])].filter
            (fun r => truthyOpt (some r.1.1))).map runEntity :=
  metadata_assembler_runs.1 _
    (List.chain'_cons.mpr ⟨by decide, List.chain'_singleton _⟩) (by decide)

/-- C9: every entity yielded by `metadata` has a non-`None` concept — the
placeholder `Metadata(None, None)` is never emitted; an empty concept-record
stream, and a stream every record of which the wanted-concepts set filters
out, yield zero entities. -/
theorem metadata_no_placeholder (wanted : Option (List String))
    (stream : List ConceptRow) :
    (∀ e ∈ metadataModel wanted stream,
        truthyOpt e.concept = true ∧ e.concept ≠ none)
    ∧ metadataModel wanted [] = []
    ∧ ((∀ row ∈ stream, keepRow wanted row = false) →
        metadataModel wanted stream = []) := by
  refine ⟨?_, rfl, ?_⟩
  · intro e he
    have ht := metaGo_mem_truthy _ _ _ he
    refine ⟨ht, fun hc => ?_⟩
    rw [hc] at ht
    exact Bool.noConfusion ht
  · intro hall
    have hf : stream.filter (keepRow wanted) = [] := by
      rw [List.filter_eq_nil_iff]
      intro a ha
      simp [hall a ha]
    show metaGo ⟨none, none, []⟩
      ((stream.filter (keepRow wanted)).flatMap metafield) = []
    rw [hf]
    rfl

/-- C9 witness: an emitted entity's concept is truthy (hence not `None`), and
a stream whose only record the wanted set rejects yields nothing. -/
theorem metadata_no_placeholder_witness :
    truthyOpt (some "A") = true
    ∧ metadataModel (some ["X"]) [rowA1x] = [] := by
  have h := metadata_no_placeholder none [rowA1x]
  have h2 := metadata_no_placeholder (some ["X"]) [rowA1x]
  exact ⟨(h.1 ⟨some "A", some "1", [("x", "1")]⟩ (by decide)).1,
    h2.2.2 (by decide)⟩

end Wbgapi
